import Mathlib

/-!
# A generational slot map, modelled from its specification

The repository ships only the unit tests of its `SlotMap` module; the module
itself (`import SlotMap;` in the tests) is not among the sources.  Every
definition below is therefore modelled from the specification: keys are
(index, generation) pairs, the slot table stores either a free-list link or
the occupant's generation and dense position, dense storage keeps values and
their owning keys in lockstep, and a LIFO free list threads through the free
slots.  Fallible operations return `Option`/`Except`; the C++ out-parameter
of `TryGet` is modelled by the `Option` result (`none` = returns `false`,
out untouched).
-/

namespace Unalmas

/-- Modelled from the spec: the handle type of the missing `SlotMap` module —
a position index and a generation counter, equality iff both fields match.
The index is an integer so that the sentinel `{-1, 0}` used by the tests is
representable. -/
structure SlotMapKey where
  index : Int
  generation : Int
deriving DecidableEq, Repr, Inhabited

/-- Modelled from the spec: one slot-table entry of the missing `SlotMap`
module — either free (linked to the next free entry) or occupied (holding
the current dense position of its value).  The generation persists through
the free state, because reuse hands out the slot "with generation unchanged
from its last stored value" and erase "advances the slot's stored
generation". -/
inductive SlotEntry where
  | Free (generation : Int) (nextFree : Option Nat)
  | Occupied (generation : Int) (densePos : Nat)
deriving DecidableEq, Repr

/-- Modelled from the spec: the state of the missing `SlotMap` container —
slot table, dense value array, parallel dense key array, free-list head. -/
structure SlotMap (α : Type) where
  slots : List SlotEntry
  values : List α
  denseKeys : List SlotMapKey
  freeHead : Option Nat
deriving Repr

namespace SlotMap

/-- Modelled from the spec: a run of `count` freshly created slot-table
entries starting at index `start`, each `Free` with generation 0 and linked
to its successor (the last one ends the chain). -/
def initSlots (start : Nat) : Nat → List SlotEntry
  | 0 => []
  | n + 1 => .Free 0 (if n = 0 then none else some (start + 1)) :: initSlots (start + 1) n

/-- Modelled from the spec: construction with an explicit starting capacity
`n` — `n` free slots, all generation 0, threaded onto the free list. -/
def create (α : Type) (n : Nat) : SlotMap α :=
  { slots := initSlots 0 n
    values := []
    denseKeys := []
    freeHead := if n = 0 then none else some 0 }

/-- Modelled from the spec: default construction, with the initial baseline
capacity of 8. -/
def createDefault (α : Type) : SlotMap α := create α 8

/-- Modelled from the spec: current live count. -/
def Size (m : SlotMap α) : Nat := m.values.length

/-- Modelled from the spec: current slot-table length. -/
def Capacity (m : SlotMap α) : Nat := m.slots.length

/-- Modelled from the spec: growth — double the slot table (from the
baseline of 8 when it is empty), appending newly-free generation-0 slots
threaded onto the free list; existing slots are untouched. -/
def grow (m : SlotMap α) : SlotMap α :=
  let old := m.slots.length
  let new := if old = 0 then 8 else 2 * old
  { m with slots := m.slots ++ initSlots old (new - old), freeHead := some old }

/-- Modelled from the spec: occupy the free slot `i` — pop it off the free
list, append the value and its owning key to dense storage, mark the slot
occupied at the new dense position, and return `Key{index, generation}` with
the slot's generation unchanged from its last stored value.  The fallback
branch is unreachable whenever `i` is a genuine free-list entry. -/
def insertAt (m : SlotMap α) (i : Nat) (v : α) : SlotMapKey × SlotMap α :=
  match m.slots[i]? with
  | some (.Free g next) =>
      let key : SlotMapKey := ⟨(i : Int), g⟩
      (key,
        { slots := m.slots.set i (.Occupied g m.values.length)
          values := m.values ++ [v]
          denseKeys := m.denseKeys ++ [key]
          freeHead := next })
  | _ => (⟨-1, 0⟩, m)

/-- Modelled from the spec: `Insert(value)` — always succeeds; reuse the
free-list head if the free list is non-empty, otherwise grow first (growth
puts the first appended slot at the free-list head). -/
def Insert (m : SlotMap α) (v : α) : SlotMapKey × SlotMap α :=
  match m.freeHead with
  | some i => insertAt m i v
  | none => insertAt m.grow m.slots.length v

/-- Modelled from the spec: a key is valid iff its index is in range, the
slot there is occupied, and the stored generation matches. -/
def isValid (m : SlotMap α) (k : SlotMapKey) : Bool :=
  !decide (k.index < 0) &&
    match m.slots[k.index.toNat]? with
    | some (.Occupied g _) => decide (g = k.generation)
    | _ => false

/-- Modelled from the spec: `TryGet(key, out)` — `none` models "returns
false, out untouched" under the invalidity conditions, `some v` models
"copies the live value into out and returns true". -/
def TryGet (m : SlotMap α) (k : SlotMapKey) : Option α :=
  if k.index < 0 then none
  else
    match m.slots[k.index.toNat]? with
    | some (.Occupied g p) => if g = k.generation then m.values[p]? else none
    | _ => none

/-- Modelled from the spec: key-based indexed access — `none` models the
signalled "key not found" error on an invalid key. -/
def atKey (m : SlotMap α) (k : SlotMapKey) : Option α :=
  if k.index < 0 then none
  else
    match m.slots[k.index.toNat]? with
    | some (.Occupied g p) => if g = k.generation then m.values[p]? else none
    | _ => none

/-- Modelled from the spec: position-based indexed access — `none` models
the "index out of range" error. -/
def atIndex (m : SlotMap α) (i : Nat) : Option α := m.values[i]?

/-- Modelled from the spec: `GetKeyForIndex(i)` returns `denseKeys[i]`. -/
def GetKeyForIndex (m : SlotMap α) (i : Nat) : Option SlotMapKey := m.denseKeys[i]?

/-- Modelled from the spec: rewrite an occupied entry's dense position,
keeping its generation (the erase-time fix-up of the moved element's slot). -/
def setDensePos (slots : List SlotEntry) (j : Nat) (p : Nat) : List SlotEntry :=
  match slots[j]? with
  | some (.Occupied g _) => slots.set j (.Occupied g p)
  | _ => slots

/-- Modelled from the spec: the dense-compaction step of `Erase` — if the
erased value already sits at the last dense position, just pop; otherwise
copy the last dense element (value and owning key) into the vacated
position `p`, pop, and fix the moved element's slot entry to point at `p`.
The fallback branch is unreachable on a well-formed map. -/
def eraseCore (m : SlotMap α) (p : Nat) : SlotMap α :=
  if p + 1 = m.values.length then
    { m with values := m.values.dropLast, denseKeys := m.denseKeys.dropLast }
  else
    match m.values.getLast?, m.denseKeys.getLast? with
    | some lv, some lk =>
        { m with
          values := (m.values.set p lv).dropLast
          denseKeys := (m.denseKeys.set p lk).dropLast
          slots := setDensePos m.slots lk.index.toNat p }
    | _, _ => m

/-- Modelled from the spec: `Erase(key)` — `false` with no state change on
an invalid key; otherwise remove the value at its dense position via
`eraseCore`, advance the erased slot's generation by one, and push the
freed index onto the free-list head. -/
def Erase (m : SlotMap α) (k : SlotMapKey) : Bool × SlotMap α :=
  if k.index < 0 then (false, m)
  else
    let i := k.index.toNat
    match m.slots[i]? with
    | some (.Occupied g p) =>
        if g = k.generation then
          let core := eraseCore m p
          (true,
            { core with
              slots := core.slots.set i (.Free (g + 1) m.freeHead)
              freeHead := some i })
        else (false, m)
    | _ => (false, m)

/-- Modelled from the spec: the slot-table rebuild performed by `Clear` —
every entry becomes free and the free list is re-threaded in index order;
a slot that was occupied has its generation advanced so the old occupant's
key cannot resurface. -/
def clearSlots (n : Nat) : Nat → List SlotEntry → List SlotEntry
  | _, [] => []
  | i, e :: rest =>
      (match e with
       | .Free g _ => SlotEntry.Free g (if i + 1 < n then some (i + 1) else none)
       | .Occupied g _ => SlotEntry.Free (g + 1) (if i + 1 < n then some (i + 1) else none))
        :: clearSlots n (i + 1) rest

/-- Modelled from the spec: `Clear()` — discard the dense arrays, rebuild
the slot table's free list; the slot table (and thus `Capacity()`) keeps its
prior length. -/
def Clear (m : SlotMap α) : SlotMap α :=
  { slots := clearSlots m.slots.length 0 m.slots
    values := []
    denseKeys := []
    freeHead := if m.slots.length = 0 then none else some 0 }

/-- Modelled from the spec: the dense-side invariant at position `p` — the
owning key recorded there points back at an occupied slot holding `p`. -/
def denseOk (m : SlotMap α) (p : Nat) : Bool :=
  match m.denseKeys[p]? with
  | some k =>
      !decide (k.index < 0) &&
        decide (m.slots[k.index.toNat]? = some (.Occupied k.generation p))
  | none => false

/-- Modelled from the spec: the slot-side invariant at index `i` — if the
slot is occupied, its dense position is in range and the dense key there is
`Key{i, generation}`. -/
def slotOk (m : SlotMap α) (i : Nat) : Bool :=
  match m.slots[i]? with
  | some (.Occupied g p) =>
      decide (p < m.denseKeys.length) &&
        decide (m.denseKeys[p]? = some ⟨(i : Int), g⟩)
  | _ => true

/-- Modelled from the spec: the free-list head is a free slot when present;
when absent, no slot is free (the growth trigger). -/
def freeHeadOk (m : SlotMap α) : Bool :=
  match m.freeHead with
  | some i =>
      match m.slots[i]? with
      | some (.Free _ _) => true
      | _ => false
  | none =>
      (List.range m.slots.length).all fun i =>
        match m.slots[i]? with
        | some (.Occupied _ _) => true
        | _ => false

/-- Modelled from the spec: the global invariants every reachable slot map
satisfies — dense arrays in lockstep, dense keys and occupied slots mutually
consistent, and a usable free-list head. -/
def wf (m : SlotMap α) : Bool :=
  decide (m.values.length = m.denseKeys.length) &&
    (List.range m.denseKeys.length).all (denseOk m) &&
    (List.range m.slots.length).all (slotOk m) &&
    freeHeadOk m

/-- Modelled from the spec: insert a whole list of values in order,
collecting the returned keys (test-scenario helper). -/
def insertList (m : SlotMap α) (vs : List α) : List SlotMapKey × SlotMap α :=
  vs.foldl (fun acc v =>
    let r := Insert acc.2 v
    (acc.1 ++ [r.1], r.2)) ([], m)

/-- Modelled from the spec: erase a whole list of keys in order
(test-scenario helper). -/
def eraseAll (m : SlotMap α) (ks : List SlotMapKey) : SlotMap α :=
  ks.foldl (fun m k => (Erase m k).2) m

end SlotMap

/-- Modelled from the spec: the observer handle — a non-owning pair of an
optional container reference and a key, revalidated on every access. -/
structure SlotMapItemPointer (α : Type) where
  map : Option (SlotMap α)
  key : SlotMapKey

/-- Modelled from the spec: the two errors an observer-handle dereference
can signal (`std::runtime_error` for a missing container,
`std::out_of_range` for a key the container does not recognise). -/
inductive AccessError where
  | MissingContainer
  | KeyNotFound
deriving DecidableEq, Repr

/-- Modelled from the spec: observer-handle dereference — "missing
container" when the container reference is absent, otherwise a key-based
indexed access whose "key not found" error propagates. -/
def SlotMapItemPointer.deref (p : SlotMapItemPointer α) : Except AccessError α :=
  match p.map with
  | none => .error .MissingContainer
  | some m =>
      match m.atKey p.key with
      | some v => .ok v
      | none => .error .KeyNotFound

end Unalmas

namespace Unalmas.SlotMap

variable {α : Type}

theorem wf_sizes {m : SlotMap α} (h : wf m = true) :
    m.values.length = m.denseKeys.length := by
  simp only [wf, Bool.and_eq_true, decide_eq_true_eq] at h
  exact h.1.1.1

theorem wf_dense {m : SlotMap α} (h : wf m = true) {p : Nat} {k : SlotMapKey}
    (hp : m.denseKeys[p]? = some k) :
    ¬k.index < 0 ∧ m.slots[k.index.toNat]? = some (.Occupied k.generation p) := by
  simp only [wf, Bool.and_eq_true, List.all_eq_true, List.mem_range] at h
  have hplt : p < m.denseKeys.length := by
    rcases List.getElem?_eq_some.mp hp with ⟨hlt, _⟩
    exact hlt
  have hd := h.1.1.2 p hplt
  simp only [denseOk, hp, Bool.and_eq_true, Bool.not_eq_true', decide_eq_false_iff_not,
    decide_eq_true_eq] at hd
  exact hd

theorem wf_slot {m : SlotMap α} (h : wf m = true) {i : Nat} {g : Int} {p : Nat}
    (hi : m.slots[i]? = some (.Occupied g p)) :
    p < m.denseKeys.length ∧ m.denseKeys[p]? = some ⟨(i : Int), g⟩ := by
  simp only [wf, Bool.and_eq_true, List.all_eq_true, List.mem_range] at h
  have hilt : i < m.slots.length := by
    rcases List.getElem?_eq_some.mp hi with ⟨hlt, _⟩
    exact hlt
  have hs := h.1.2 i hilt
  simp only [slotOk, hi, Bool.and_eq_true, decide_eq_true_eq] at hs
  exact hs

theorem wf_head {m : SlotMap α} (h : wf m = true) {i : Nat} (hi : m.freeHead = some i) :
    ∃ g n, m.slots[i]? = some (.Free g n) := by
  simp only [wf, Bool.and_eq_true] at h
  have hf := h.2
  rw [freeHeadOk, hi] at hf
  have hf' : (match m.slots[i]? with
      | some (SlotEntry.Free _ _) => true
      | _ => false) = true := hf
  rcases he : m.slots[i]? with _ | e
  · rw [he] at hf'; exact absurd hf' (by simp)
  · cases e with
    | Free g n => exact ⟨g, n, rfl⟩
    | Occupied g p => rw [he] at hf'; exact absurd hf' (by simp)

theorem wf_nohead {m : SlotMap α} (h : wf m = true) (hn : m.freeHead = none)
    {i : Nat} (hi : i < m.slots.length) :
    ∃ g p, m.slots[i]? = some (.Occupied g p) := by
  simp only [wf, Bool.and_eq_true] at h
  have hf := h.2
  rw [freeHeadOk, hn] at hf
  have hf' : ((List.range m.slots.length).all fun i =>
      match m.slots[i]? with
      | some (SlotEntry.Occupied _ _) => true
      | _ => false) = true := hf
  rw [List.all_eq_true] at hf'
  have hb := hf' i (List.mem_range.mpr hi)
  simp only at hb
  rcases he : m.slots[i]? with _ | e
  · rw [he] at hb; exact absurd hb (by simp)
  · cases e with
    | Free g n => rw [he] at hb; exact absurd hb (by simp)
    | Occupied g p => exact ⟨g, p, rfl⟩

theorem initSlots_length (s n : Nat) : (initSlots s n).length = n := by
  induction n generalizing s with
  | zero => rfl
  | succ n ih => simp [initSlots, ih]

theorem initSlots_get (s n k : Nat) (hk : k < n) :
    ∃ nx, (initSlots s n)[k]? = some (.Free 0 nx) := by
  induction n generalizing s k with
  | zero => omega
  | succ n ih =>
    cases k with
    | zero =>
      exact ⟨if n = 0 then none else some (s + 1), by rw [initSlots]; simp⟩
    | succ k =>
      rw [initSlots, List.getElem?_cons_succ]
      exact ih (s + 1) k (by omega)

theorem grow_values (m : SlotMap α) : (grow m).values = m.values := rfl

theorem grow_denseKeys (m : SlotMap α) : (grow m).denseKeys = m.denseKeys := rfl

theorem grow_freeHead (m : SlotMap α) : (grow m).freeHead = some m.slots.length := rfl

theorem grow_slots_pre (m : SlotMap α) (j : Nat) (hj : j < m.slots.length) :
    (grow m).slots[j]? = m.slots[j]? := by
  simp [grow, List.getElem?_append, hj]

theorem grow_count_pos (m : SlotMap α) :
    0 < (if m.slots.length = 0 then 8 else 2 * m.slots.length) - m.slots.length := by
  by_cases h : m.slots.length = 0
  · simp [h]
  · simp [h]
    omega

theorem grow_slots_len (m : SlotMap α) :
    (grow m).slots.length =
      m.slots.length +
        ((if m.slots.length = 0 then 8 else 2 * m.slots.length) - m.slots.length) := by
  simp [grow, List.length_append, initSlots_length]

theorem grow_capacity_lt (m : SlotMap α) : m.slots.length < (grow m).slots.length := by
  have := grow_count_pos m
  rw [grow_slots_len]
  omega

theorem grow_head_slot (m : SlotMap α) :
    ∃ nx, (grow m).slots[m.slots.length]? = some (.Free 0 nx) := by
  have hr : (grow m).slots = m.slots ++
      initSlots m.slots.length
        ((if m.slots.length = 0 then 8 else 2 * m.slots.length) - m.slots.length) := rfl
  rw [hr, List.getElem?_append_right (le_refl _), Nat.sub_self]
  exact initSlots_get _ _ 0 (grow_count_pos m)

theorem grow_slots_new (m : SlotMap α) (j : Nat) (hj : m.slots.length ≤ j)
    (hj' : j < (grow m).slots.length) :
    ∃ nx, (grow m).slots[j]? = some (.Free 0 nx) := by
  have hr : (grow m).slots = m.slots ++
      initSlots m.slots.length
        ((if m.slots.length = 0 then 8 else 2 * m.slots.length) - m.slots.length) := rfl
  rw [hr, List.getElem?_append_right hj]
  apply initSlots_get
  have := grow_slots_len m
  omega

theorem insertAt_spec (m : SlotMap α) (i : Nat) (v : α) (g : Int) (next : Option Nat)
    (hs : m.slots[i]? = some (.Free g next)) :
    insertAt m i v =
      (⟨(i : Int), g⟩,
        { slots := m.slots.set i (.Occupied g m.values.length)
          values := m.values ++ [v]
          denseKeys := m.denseKeys ++ [⟨(i : Int), g⟩]
          freeHead := next }) := by
  rw [insertAt, hs]

theorem size_le_capacity {m : SlotMap α} (h : wf m = true) :
    m.values.length ≤ m.slots.length := by
  rw [wf_sizes h]
  have hb : ∀ p : Fin m.denseKeys.length,
      (m.denseKeys[p.1]).index.toNat < m.slots.length := by
    intro p
    have hp : m.denseKeys[p.1]? = some (m.denseKeys[p.1]) := List.getElem?_eq_getElem p.2
    exact (List.getElem?_eq_some.mp (wf_dense h hp).2).1
  have hinj : Function.Injective
      (fun p : Fin m.denseKeys.length =>
        (⟨(m.denseKeys[p.1]).index.toNat, hb p⟩ : Fin m.slots.length)) := by
    intro p q hpq
    have hp : m.denseKeys[p.1]? = some (m.denseKeys[p.1]) := List.getElem?_eq_getElem p.2
    have hq : m.denseKeys[q.1]? = some (m.denseKeys[q.1]) := List.getElem?_eq_getElem q.2
    have hdp := (wf_dense h hp).2
    have hdq := (wf_dense h hq).2
    have hix : (m.denseKeys[p.1]).index.toNat = (m.denseKeys[q.1]).index.toNat :=
      congrArg Fin.val hpq
    rw [hix, hdq] at hdp
    simp only [Option.some.injEq, SlotEntry.Occupied.injEq] at hdp
    exact Fin.ext hdp.2.symm
  simpa using Fintype.card_le_of_injective _ hinj

theorem capacity_le_size_of_nohead {m : SlotMap α} (h : wf m = true)
    (hn : m.freeHead = none) : m.slots.length ≤ m.values.length := by
  rw [wf_sizes h]
  have h1 : ∀ i : Fin m.slots.length, ∃ g p, m.slots[i.1]? = some (.Occupied g p) :=
    fun i => wf_nohead h hn i.2
  choose gf pf hf using h1
  have hb : ∀ i, pf i < m.denseKeys.length := fun i => (wf_slot h (hf i)).1
  have hinj : Function.Injective
      (fun i : Fin m.slots.length => (⟨pf i, hb i⟩ : Fin m.denseKeys.length)) := by
    intro i j hij
    have hpi := (wf_slot h (hf i)).2
    have hpj := (wf_slot h (hf j)).2
    have hp : pf i = pf j := congrArg Fin.val hij
    rw [hp, hpj] at hpi
    simp only [Option.some.injEq, SlotMapKey.mk.injEq] at hpi
    exact Fin.ext (by exact_mod_cast hpi.1.symm)
  simpa using Fintype.card_le_of_injective _ hinj

theorem freeHead_of_size_lt {m : SlotMap α} (h : wf m = true)
    (hlt : m.values.length < m.slots.length) : ∃ i, m.freeHead = some i := by
  rcases hn : m.freeHead with _ | i
  · exact absurd (capacity_le_size_of_nohead h hn) (by omega)
  · exact ⟨i, rfl⟩

theorem insert_shape {m : SlotMap α} (h : wf m = true) (v : α) :
    ∃ (mb : SlotMap α) (i : Nat) (g : Int) (next : Option Nat),
      mb.slots[i]? = some (.Free g next) ∧
      Insert m v =
        (⟨(i : Int), g⟩,
          { slots := mb.slots.set i (.Occupied g m.values.length)
            values := m.values ++ [v]
            denseKeys := m.denseKeys ++ [⟨(i : Int), g⟩]
            freeHead := next }) ∧
      m.slots.length ≤ mb.slots.length ∧ i < mb.slots.length ∧
      (∀ j, j < m.slots.length → mb.slots[j]? = m.slots[j]?) ∧
      (mb = m ∨ m.freeHead = none ∧ mb = m.grow) := by
  rcases hh : m.freeHead with _ | i
  · rcases grow_head_slot m with ⟨nx, hs⟩
    refine ⟨m.grow, m.slots.length, 0, nx, hs, ?_, le_of_lt (grow_capacity_lt m),
      grow_capacity_lt m, grow_slots_pre m, Or.inr ⟨rfl, rfl⟩⟩
    rw [Insert, hh]
    exact insertAt_spec m.grow m.slots.length v 0 nx hs
  · rcases wf_head h hh with ⟨g, nx, hs⟩
    have hilt : i < m.slots.length := (List.getElem?_eq_some.mp hs).1
    refine ⟨m, i, g, nx, hs, ?_, le_refl _, hilt, fun j _ => rfl, Or.inl rfl⟩
    rw [Insert, hh]
    exact insertAt_spec m i v g nx hs

theorem tryGet_eq {m : SlotMap α} {k : SlotMapKey} {g : Int} {p : Nat}
    (h0 : ¬k.index < 0) (hs : m.slots[k.index.toNat]? = some (.Occupied g p)) :
    m.TryGet k = if g = k.generation then m.values[p]? else none := by
  simp [TryGet, h0, hs]

theorem atKey_eq {m : SlotMap α} {k : SlotMapKey} {g : Int} {p : Nat}
    (h0 : ¬k.index < 0) (hs : m.slots[k.index.toNat]? = some (.Occupied g p)) :
    m.atKey k = if g = k.generation then m.values[p]? else none := by
  simp [atKey, h0, hs]

theorem atKey_eq_tryGet (m : SlotMap α) (k : SlotMapKey) : m.atKey k = m.TryGet k := rfl

theorem isValid_true_iff {m : SlotMap α} {k : SlotMapKey} :
    isValid m k = true ↔
      ¬k.index < 0 ∧ ∃ p, m.slots[k.index.toNat]? = some (.Occupied k.generation p) := by
  rw [isValid]
  rcases hs : m.slots[k.index.toNat]? with _ | e
  · simp [hs]
  · cases e with
    | Free g n => simp [hs]
    | Occupied g p =>
      simp only [hs, Bool.and_eq_true, Bool.not_eq_true', decide_eq_false_iff_not,
        decide_eq_true_eq, Option.some.injEq, SlotEntry.Occupied.injEq]
      constructor
      · rintro ⟨h0, hg⟩
        exact ⟨h0, p, hg, rfl⟩
      · rintro ⟨h0, q, hg, _⟩
        exact ⟨h0, hg⟩

theorem erase_eq {m : SlotMap α} {k : SlotMapKey} {g : Int} {p : Nat}
    (h0 : ¬k.index < 0) (hs : m.slots[k.index.toNat]? = some (.Occupied g p))
    (hg : g = k.generation) :
    Erase m k =
      (true,
        { eraseCore m p with
          slots := (eraseCore m p).slots.set k.index.toNat (.Free (g + 1) m.freeHead)
          freeHead := some k.index.toNat }) := by
  simp [Erase, h0, hs, hg]

theorem erase_invalid {m : SlotMap α} {k : SlotMapKey} (hv : isValid m k = false) :
    Erase m k = (false, m) := by
  by_cases h0 : k.index < 0
  · simp [Erase, h0]
  · rcases hs : m.slots[k.index.toNat]? with _ | e
    · simp [Erase, h0, hs]
    · cases e with
      | Free g n => simp [Erase, h0, hs]
      | Occupied g p =>
        have hg : ¬g = k.generation := by
          intro hgk
          rw [isValid_true_iff.mpr ⟨h0, p, hgk ▸ hs⟩] at hv
          simp at hv
        simp [Erase, h0, hs, hg]

theorem tryGet_invalid {m : SlotMap α} {k : SlotMapKey} (hv : isValid m k = false) :
    m.TryGet k = none := by
  by_cases h0 : k.index < 0
  · simp [TryGet, h0]
  · rcases hs : m.slots[k.index.toNat]? with _ | e
    · simp [TryGet, h0, hs]
    · cases e with
      | Free g n => simp [TryGet, h0, hs]
      | Occupied g p =>
        have hg : ¬g = k.generation := by
          intro hgk
          rw [isValid_true_iff.mpr ⟨h0, p, hgk ▸ hs⟩] at hv
          simp at hv
        simp [TryGet, h0, hs, hg]

theorem getElem?_dropLast (l : List α) (q : Nat) (hq : q + 1 < l.length) :
    l.dropLast[q]? = l[q]? := by
  rw [List.dropLast_eq_take, List.getElem?_take, if_pos (by omega)]

theorem key_eq_of_fields {k k' : SlotMapKey} (h1 : k.index = k'.index)
    (h2 : k.generation = k'.generation) : k = k' := by
  cases k; cases k'; cases h1; cases h2; rfl

theorem index_eq_of_toNat_eq {a b : Int} (ha : ¬a < 0) (hb : ¬b < 0)
    (h : a.toNat = b.toNat) : a = b := by omega

theorem erase_wf_spec {m : SlotMap α} {k : SlotMapKey} (h : wf m = true)
    (h0 : ¬k.index < 0) {p : Nat}
    (hs : m.slots[k.index.toNat]? = some (.Occupied k.generation p)) :
    (Erase m k).1 = true ∧
    (Erase m k).2.values.length + 1 = m.values.length ∧
    (Erase m k).2.denseKeys.length + 1 = m.denseKeys.length ∧
    (Erase m k).2.slots.length = m.slots.length ∧
    (Erase m k).2.slots[k.index.toNat]? =
      some (.Free (k.generation + 1) m.freeHead) ∧
    (Erase m k).2.freeHead = some k.index.toNat ∧
    (∀ k', isValid m k' = true → k' ≠ k →
      (Erase m k).2.TryGet k' = m.TryGet k') ∧
    (p + 1 < m.values.length →
      (Erase m k).2.atIndex p = m.atIndex (m.values.length - 1)) := by
  have hilt : k.index.toNat < m.slots.length := (List.getElem?_eq_some.mp hs).1
  have hpd : p < m.denseKeys.length := (wf_slot h hs).1
  have hdk : m.denseKeys[p]? = some ⟨(k.index.toNat : Int), k.generation⟩ := (wf_slot h hs).2
  have hsz : m.values.length = m.denseKeys.length := wf_sizes h
  have hkix : (k.index.toNat : Int) = k.index := Int.toNat_of_nonneg (not_lt.mp h0)
  have hdk' : m.denseKeys[p]? = some ⟨k.index, k.generation⟩ := by rw [← hkix]; exact hdk
  have heq := erase_eq h0 hs rfl
  have hE : (Erase m k).2 =
      { eraseCore m p with
        slots := (eraseCore m p).slots.set k.index.toNat
          (.Free (k.generation + 1) m.freeHead)
        freeHead := some k.index.toNat } := by rw [heq]
  have hE1 : (Erase m k).1 = true := by rw [heq]
  -- facts about the compaction core, split on whether the erased value was last
  by_cases hpn : p + 1 = m.values.length
  · -- the erased value is the last dense element: plain pop
    have hcore : eraseCore m p =
        { m with values := m.values.dropLast, denseKeys := m.denseKeys.dropLast } := by
      rw [eraseCore, if_pos hpn]
    refine ⟨hE1, ?_, ?_, ?_, ?_, ?_, ?_, ?_⟩
    · rw [hE, hcore]
      simp only [List.length_dropLast]
      omega
    · rw [hE, hcore]
      simp only [List.length_dropLast]
      omega
    · rw [hE, hcore]
      simp only [List.length_set]
    · rw [hE, hcore]
      exact List.getElem?_set_self (by simpa using hilt)
    · rw [hE]
    · intro k' hv' hkk'
      rcases isValid_true_iff.mp hv' with ⟨h0', p', hs'⟩
      have hii : k'.index.toNat ≠ k.index.toNat := by
        intro hcon
        rw [hcon, hs] at hs'
        simp only [Option.some.injEq, SlotEntry.Occupied.injEq] at hs'
        exact hkk' (key_eq_of_fields (index_eq_of_toNat_eq h0' h0 hcon) hs'.1.symm)
      have hp' : p' < m.denseKeys.length := (wf_slot h hs').1
      have hdkp' : m.denseKeys[p']? = some ⟨(k'.index.toNat : Int), k'.generation⟩ :=
        (wf_slot h hs').2
      have hpp' : p' ≠ p := by
        intro hcon
        rw [hcon, hdk] at hdkp'
        simp only [Option.some.injEq, SlotMapKey.mk.injEq] at hdkp'
        exact hii (by exact_mod_cast hdkp'.1.symm)
      have hslotE : (Erase m k).2.slots[k'.index.toNat]? = some (.Occupied k'.generation p') := by
        rw [hE, hcore]
        rw [List.getElem?_set_ne (Ne.symm hii)]
        exact hs'
      rw [tryGet_eq h0' hslotE, tryGet_eq h0' hs', if_pos rfl, if_pos rfl]
      rw [hE, hcore]
      exact getElem?_dropLast m.values p' (by omega)
    · intro hcon
      omega
  · -- the erased value sits strictly inside: the last element moves into its place
    have hn0 : 0 < m.values.length := by omega
    have hlv' : m.values[m.values.length - 1]? = some (m.values.getLast (by
        intro hc
        rw [hc] at hn0
        simp at hn0)) := by
      rw [← List.getLast?_eq_getElem?, List.getLast?_eq_getLast]
    rcases hx : m.values[m.values.length - 1]? with _ | lv
    · rw [hx] at hlv'; exact absurd hlv' (by simp)
    rcases hy : m.denseKeys[m.denseKeys.length - 1]? with _ | lk
    · exact absurd hy (by
        rw [List.getElem?_eq_getElem (by omega)]
        simp)
    have hlv : m.values.getLast? = some lv := by rw [List.getLast?_eq_getElem?]; exact hx
    have hlk : m.denseKeys.getLast? = some lk := by rw [List.getLast?_eq_getElem?]; exact hy
    have hlk0 : ¬lk.index < 0 := (wf_dense h hy).1
    have hlks : m.slots[lk.index.toNat]? =
        some (.Occupied lk.generation (m.denseKeys.length - 1)) := (wf_dense h hy).2
    have hjji : lk.index.toNat ≠ k.index.toNat := by
      intro hcon
      rw [hcon, hs] at hlks
      simp only [Option.some.injEq, SlotEntry.Occupied.injEq] at hlks
      omega
    have hsd : setDensePos m.slots lk.index.toNat p =
        m.slots.set lk.index.toNat (.Occupied lk.generation p) := by
      rw [setDensePos, hlks]
    have hcore : eraseCore m p =
        { m with
          values := (m.values.set p lv).dropLast
          denseKeys := (m.denseKeys.set p lk).dropLast
          slots := m.slots.set lk.index.toNat (.Occupied lk.generation p) } := by
      simp only [eraseCore, if_neg hpn, hlv, hlk]
      rw [hsd]
    have hvalE : (Erase m k).2.values = (m.values.set p lv).dropLast := by rw [hE, hcore]
    have hEvp : (Erase m k).2.values[p]? = some lv := by
      rw [hvalE, getElem?_dropLast _ p (by simp [List.length_set]; omega)]
      exact List.getElem?_set_self (by omega)
    refine ⟨hE1, ?_, ?_, ?_, ?_, ?_, ?_, ?_⟩
    · rw [hE, hcore]
      simp only [List.length_dropLast, List.length_set]
      omega
    · rw [hE, hcore]
      simp only [List.length_dropLast, List.length_set]
      omega
    · rw [hE, hcore]
      simp only [List.length_set]
    · rw [hE, hcore]
      refine List.getElem?_set_self ?_
      simp only [List.length_set]
      exact hilt
    · rw [hE]
    · intro k' hv' hkk'
      rcases isValid_true_iff.mp hv' with ⟨h0', p', hs'⟩
      have hii : k'.index.toNat ≠ k.index.toNat := by
        intro hcon
        rw [hcon, hs] at hs'
        simp only [Option.some.injEq, SlotEntry.Occupied.injEq] at hs'
        exact hkk' (key_eq_of_fields (index_eq_of_toNat_eq h0' h0 hcon) hs'.1.symm)
      have hp' : p' < m.denseKeys.length := (wf_slot h hs').1
      have hdkp' : m.denseKeys[p']? = some ⟨(k'.index.toNat : Int), k'.generation⟩ :=
        (wf_slot h hs').2
      have hpp' : p' ≠ p := by
        intro hcon
        rw [hcon, hdk] at hdkp'
        simp only [Option.some.injEq, SlotMapKey.mk.injEq] at hdkp'
        exact hii (by exact_mod_cast hdkp'.1.symm)
      by_cases hij : k'.index.toNat = lk.index.toNat
      · -- k' owns the element that moved into the vacated position
        have hs'' := hs'
        rw [hij, hlks] at hs''
        simp only [Option.some.injEq, SlotEntry.Occupied.injEq] at hs''
        have hslotE : (Erase m k).2.slots[k'.index.toNat]? =
            some (.Occupied lk.generation p) := by
          rw [hE, hcore]
          rw [List.getElem?_set_ne (by rw [hij]; exact Ne.symm hjji), hij]
          exact List.getElem?_set_self (by
            exact (List.getElem?_eq_some.mp hlks).1)
        have hgen : lk.generation = k'.generation := hs''.1
        rw [tryGet_eq h0' hslotE, tryGet_eq h0' hs', if_pos hgen, if_pos rfl, hEvp]
        rw [← hs''.2, ← hsz]
        exact hx.symm
      · -- k' is unrelated to both the erased and the moved element
        have hslotE : (Erase m k).2.slots[k'.index.toNat]? =
            some (.Occupied k'.generation p') := by
          rw [hE, hcore]
          rw [List.getElem?_set_ne (Ne.symm hii), List.getElem?_set_ne (Ne.symm hij)]
          exact hs'
        have hpl : p' ≠ m.denseKeys.length - 1 := by
          intro hcon
          rw [hcon, hy] at hdkp'
          simp only [Option.some.injEq] at hdkp'
          apply hij
          rw [hdkp']
          show k'.index.toNat = ((k'.index.toNat : Int)).toNat
          omega
        rw [tryGet_eq h0' hslotE, tryGet_eq h0' hs', if_pos rfl, if_pos rfl]
        rw [hE, hcore]
        rw [getElem?_dropLast _ p' (by simp [List.length_set]; omega)]
        exact List.getElem?_set_ne (Ne.symm hpp')
    · intro hp1
      rw [atIndex, hEvp, atIndex, ← hsz] at *
      rw [hx]

theorem insert_preserves {m : SlotMap α} (h : wf m = true) {k : SlotMapKey}
    (hv : isValid m k = true) (w : α) :
    isValid (Insert m w).2 k = true ∧ (Insert m w).2.TryGet k = m.TryGet k := by
  rcases insert_shape h w with ⟨mb, i, g, nx, hfree, hins, hle, hilt, hpre, hor⟩
  rcases isValid_true_iff.mp hv with ⟨h0, p, hs⟩
  have hki : k.index.toNat < m.slots.length := (List.getElem?_eq_some.mp hs).1
  have hmb : mb.slots[k.index.toNat]? = some (.Occupied k.generation p) := by
    rw [hpre k.index.toNat hki]; exact hs
  have hne : i ≠ k.index.toNat := by
    intro hcon
    rw [hcon, hmb] at hfree
    simp at hfree
  have hslot : (Insert m w).2.slots[k.index.toNat]? =
      some (.Occupied k.generation p) := by
    rw [hins]
    rw [List.getElem?_set_ne hne]
    exact hmb
  have hple : p < m.values.length := by
    have := (wf_slot h hs).1
    rw [wf_sizes h]
    exact this
  have hvals : (Insert m w).2.values[p]? = m.values[p]? := by
    rw [hins]
    rw [List.getElem?_append, if_pos hple]
  refine ⟨isValid_true_iff.mpr ⟨h0, p, hslot⟩, ?_⟩
  rw [tryGet_eq h0 hslot, tryGet_eq h0 hs, if_pos rfl, if_pos rfl]
  exact hvals

theorem clearSlots_length (l : List SlotEntry) (n i : Nat) :
    (clearSlots n i l).length = l.length := by
  induction l generalizing i with
  | nil => rfl
  | cons e rest ih => simp [clearSlots, ih]

theorem clearSlots_all_free (l : List SlotEntry) (n i j : Nat) (e : SlotEntry)
    (he : (clearSlots n i l)[j]? = some e) : ∃ g nx, e = .Free g nx := by
  induction l generalizing i j with
  | nil => simp [clearSlots] at he
  | cons a rest ih =>
    cases j with
    | zero =>
      rw [clearSlots.eq_def, List.getElem?_cons_zero, Option.some.injEq] at he
      cases a with
      | Free g nx => exact ⟨g, _, he.symm⟩
      | Occupied g p => exact ⟨g + 1, _, he.symm⟩
    | succ j =>
      rw [clearSlots.eq_def, List.getElem?_cons_succ] at he
      exact ih (i + 1) j he

theorem clear_tryGet (m : SlotMap α) (k : SlotMapKey) : (Clear m).TryGet k = none := by
  rw [TryGet]
  by_cases h0 : k.index < 0
  · rw [if_pos h0]
  · rw [if_neg h0]
    rcases hs : (Clear m).slots[k.index.toNat]? with _ | e
    · simp [hs]
    · rcases clearSlots_all_free m.slots m.slots.length 0 k.index.toNat e hs with ⟨g, nx, rfl⟩
      simp [hs]

theorem clear_capacity (m : SlotMap α) : (Clear m).Capacity = m.Capacity := by
  rw [Capacity, Capacity]
  exact clearSlots_length m.slots m.slots.length 0

theorem setDensePos_length (slots : List SlotEntry) (j p : Nat) :
    (setDensePos slots j p).length = slots.length := by
  unfold setDensePos
  split
  · exact List.length_set slots j _
  · rfl

theorem eraseCore_slots_length (m : SlotMap α) (p : Nat) :
    (eraseCore m p).slots.length = m.slots.length := by
  unfold eraseCore
  split
  · rfl
  · split
    · exact setDensePos_length m.slots _ p
    · rfl

theorem isValid_of_tryGet_some {m : SlotMap α} {k : SlotMapKey} {v : α}
    (h : m.TryGet k = some v) : isValid m k = true := by
  by_cases h0 : k.index < 0
  · rw [TryGet, if_pos h0] at h
    exact absurd h (by simp)
  · rcases hs : m.slots[k.index.toNat]? with _ | e
    · rw [TryGet, if_neg h0] at h
      simp [hs] at h
    · cases e with
      | Free g n =>
        rw [TryGet, if_neg h0] at h
        simp [hs] at h
      | Occupied g p =>
        by_cases hg : g = k.generation
        · exact isValid_true_iff.mpr ⟨h0, p, hg ▸ hs⟩
        · rw [tryGet_eq h0 hs, if_neg hg] at h
          exact absurd h (by simp)


/-- C3: for every well-formed slot map and every value `v`, `Insert(v)`
always succeeds and returns a key `k` such that an immediately following
`TryGet(k)` yields `v`, and key-based indexed access with `k` yields `v`. -/
theorem c3_insert_then_lookup {α : Type} (m : SlotMap α) (v : α) (h : wf m = true) :
    (Insert m v).2.TryGet (Insert m v).1 = some v ∧
    (Insert m v).2.atKey (Insert m v).1 = some v := by
  rcases insert_shape h v with ⟨mb, i, g, nx, hfree, hins, hle, hilt, hpre, hor⟩
  have h1 : (Insert m v).1 = ⟨(i : Int), g⟩ := by rw [hins]
  have htn : ((i : Int)).toNat = i := by omega
  have h0 : ¬((i : Int) < 0) := by omega
  have hslot : (Insert m v).2.slots[i]? = some (.Occupied g m.values.length) := by
    rw [hins]
    exact List.getElem?_set_self hilt
  have hslot' : (Insert m v).2.slots[((i : Int)).toNat]? =
      some (.Occupied g m.values.length) := by rw [htn]; exact hslot
  have hval : (Insert m v).2.values[m.values.length]? = some v := by
    rw [hins]
    exact List.getElem?_concat_length m.values v
  have hmain : (Insert m v).2.TryGet (⟨(i : Int), g⟩ : SlotMapKey) = some v := by
    rw [tryGet_eq h0 hslot', if_pos rfl]
    exact hval
  exact ⟨h1 ▸ hmain, h1 ▸ (atKey_eq_tryGet _ _ ▸ hmain)⟩

/-- Witness for C3: a concrete well-formed map. -/
theorem c3_insert_then_lookup_witness :
    wf (create Int 2) = true ∧
    ((Insert (create Int 2) 42).2.TryGet (Insert (create Int 2) 42).1 = some 42 ∧
     (Insert (create Int 2) 42).2.atKey (Insert (create Int 2) 42).1 = some 42) :=
  ⟨by decide, c3_insert_then_lookup (create Int 2) 42 (by decide)⟩

/-- C4: `Erase` on a live key of a well-formed map returns true and
decreases `Size` by exactly one, and afterwards a repeated `Erase` or
`TryGet` with that same key returns false. -/
theorem c4_erase_live {α : Type} (m : SlotMap α) (k : SlotMapKey)
    (h : wf m = true) (hv : isValid m k = true) :
    (Erase m k).1 = true ∧
    (Erase m k).2.Size + 1 = m.Size ∧
    ((Erase m k).2.Erase k).1 = false ∧
    (Erase m k).2.TryGet k = none := by
  rcases isValid_true_iff.mp hv with ⟨h0, p, hs⟩
  obtain ⟨he1, hlen, _, _, hfree, _, _, _⟩ := erase_wf_spec h h0 hs
  have hinv : isValid (Erase m k).2 k = false := by
    cases hb : isValid (Erase m k).2 k
    · rfl
    · rcases isValid_true_iff.mp hb with ⟨_, q, hq⟩
      rw [hfree] at hq
      simp at hq
  refine ⟨he1, hlen, ?_, tryGet_invalid hinv⟩
  rw [erase_invalid hinv]

/-- Witness for C4: erase the one live key of a concrete map. -/
theorem c4_erase_live_witness :
    (wf (Insert (create Int 2) 7).2 = true ∧
     isValid (Insert (create Int 2) 7).2 (Insert (create Int 2) 7).1 = true) ∧
    ((Erase (Insert (create Int 2) 7).2 (Insert (create Int 2) 7).1).1 = true ∧
     (Erase (Insert (create Int 2) 7).2 (Insert (create Int 2) 7).1).2.Size + 1 =
       (Insert (create Int 2) 7).2.Size ∧
     ((Erase (Insert (create Int 2) 7).2 (Insert (create Int 2) 7).1).2.Erase
       (Insert (create Int 2) 7).1).1 = false ∧
     (Erase (Insert (create Int 2) 7).2 (Insert (create Int 2) 7).1).2.TryGet
       (Insert (create Int 2) 7).1 = none) :=
  ⟨⟨by decide, by decide⟩,
   c4_erase_live (Insert (create Int 2) 7).2 (Insert (create Int 2) 7).1
     (by decide) (by decide)⟩

/-- C5: for every invalid key (negative or out-of-range index, free slot, or
generation mismatch), `Erase` and `TryGet` return false and leave the whole
slot map unchanged (`Erase` returns the very same state; the `none` result
of `TryGet` models "out left untouched"); both are total functions. -/
theorem c5_invalid_noop {α : Type} (m : SlotMap α) (k : SlotMapKey)
    (hv : isValid m k = false) :
    Erase m k = (false, m) ∧ m.TryGet k = none :=
  ⟨erase_invalid hv, tryGet_invalid hv⟩

/-- Witness for C5: the test sentinel key `{-1, 0}` against a concrete map. -/
theorem c5_invalid_noop_witness :
    isValid (Insert (create Int 2) 7).2 ⟨-1, 0⟩ = false ∧
    (Erase (Insert (create Int 2) 7).2 ⟨-1, 0⟩ = (false, (Insert (create Int 2) 7).2) ∧
     (Insert (create Int 2) 7).2.TryGet ⟨-1, 0⟩ = none) :=
  ⟨by decide, c5_invalid_noop (Insert (create Int 2) 7).2 ⟨-1, 0⟩ (by decide)⟩

/-- C9: observer-handle dereference has exactly three behaviours — a missing
container signals `MissingContainer`; a present container with an invalid
key propagates the key-based access error as `KeyNotFound`; a live key
yields the live value.  `deref` is a pure function of the current container
state, so every access re-validates. -/
theorem c9_pointer_deref {α : Type} (k : SlotMapKey) (m : SlotMap α) :
    (SlotMapItemPointer.deref ⟨none, k⟩ : Except AccessError α) =
      .error .MissingContainer ∧
    (m.atKey k = none →
      SlotMapItemPointer.deref ⟨some m, k⟩ = (.error .KeyNotFound : Except AccessError α)) ∧
    (∀ v, m.atKey k = some v → SlotMapItemPointer.deref ⟨some m, k⟩ = .ok v) := by
  refine ⟨rfl, ?_, ?_⟩
  · intro hnone
    simp [SlotMapItemPointer.deref, hnone]
  · intro v hv
    simp [SlotMapItemPointer.deref, hv]

/-- Witness for C9: all three behaviours at concrete inputs (the map holding
42 under its first key, the invalid sentinel key, the absent container). -/
theorem c9_pointer_deref_witness :
    (SlotMapItemPointer.deref ⟨none, (Insert (create Int 2) 42).1⟩ : Except AccessError Int) =
      .error .MissingContainer ∧
    SlotMapItemPointer.deref ⟨some (Insert (create Int 2) 42).2, ⟨-1, 0⟩⟩ =
      (.error .KeyNotFound : Except AccessError Int) ∧
    SlotMapItemPointer.deref ⟨some (Insert (create Int 2) 42).2, (Insert (create Int 2) 42).1⟩ =
      (.ok 42 : Except AccessError Int) :=
  ⟨(c9_pointer_deref (Insert (create Int 2) 42).1 (Insert (create Int 2) 42).2).1,
   (c9_pointer_deref ⟨-1, 0⟩ (Insert (create Int 2) 42).2).2.1 (by decide),
   (c9_pointer_deref (Insert (create Int 2) 42).1 (Insert (create Int 2) 42).2).2.2 42 (by decide)⟩


/-- C6: after `Clear()` on any well-formed slot map, `Size()` is 0, every
key (in particular every key issued before the clear) immediately fails
`TryGet`, and `Capacity()` is unchanged and at least the size the map had
reached before clearing. -/
theorem c6_clear {α : Type} (m : SlotMap α) (h : wf m = true) :
    (Clear m).Size = 0 ∧
    (∀ k, (Clear m).TryGet k = none) ∧
    (Clear m).Capacity = m.Capacity ∧
    m.Size ≤ (Clear m).Capacity := by
  refine ⟨rfl, fun k => clear_tryGet m k, clear_capacity m, ?_⟩
  rw [clear_capacity m]
  exact size_le_capacity h

/-- Witness for C6: clearing a concrete map that grew from capacity 2 to
hold three values. -/
theorem c6_clear_witness :
    wf (insertList (create Int 2) [1, 2, 3]).2 = true ∧
    ((Clear (insertList (create Int 2) [1, 2, 3]).2).Size = 0 ∧
     (∀ k, (Clear (insertList (create Int 2) [1, 2, 3]).2).TryGet k = none) ∧
     (Clear (insertList (create Int 2) [1, 2, 3]).2).Capacity =
       (insertList (create Int 2) [1, 2, 3]).2.Capacity ∧
     (insertList (create Int 2) [1, 2, 3]).2.Size ≤
       (Clear (insertList (create Int 2) [1, 2, 3]).2).Capacity) :=
  ⟨by decide, c6_clear (insertList (create Int 2) [1, 2, 3]).2 (by decide)⟩

/-- C8: iteration covers exactly `Size()` values in dense order, and for
every dense position `i` below `Size()`, `GetKeyForIndex(i)` returns a key
whose `TryGet` and key-based indexed access yield exactly the value seen by
position-based access at `i`. -/
theorem c8_key_for_index {α : Type} (m : SlotMap α) (h : wf m = true) (i : Nat)
    (hi : i < m.Size) :
    m.values.length = m.Size ∧
    ∃ k v, m.GetKeyForIndex i = some k ∧ m.atIndex i = some v ∧
      m.TryGet k = some v ∧ m.atKey k = some v := by
  have hsz := wf_sizes h
  have hid : i < m.denseKeys.length := by rw [← hsz]; exact hi
  have hk : m.denseKeys[i]? = some (m.denseKeys[i]) := List.getElem?_eq_getElem hid
  have hd := wf_dense h hk
  have hv : m.values[i]? = some (m.values[i]) := List.getElem?_eq_getElem hi
  have hmain : m.TryGet (m.denseKeys[i]) = some (m.values[i]) := by
    rw [tryGet_eq hd.1 hd.2, if_pos rfl]
    exact hv
  exact ⟨rfl, m.denseKeys[i], m.values[i], hk, hv, hmain,
    (atKey_eq_tryGet _ _).symm ▸ hmain⟩

/-- Witness for C8: the middle dense position of a concrete three-element
map. -/
theorem c8_key_for_index_witness :
    (wf (insertList (create Int 4) [5, 6, 7]).2 = true ∧
     1 < (insertList (create Int 4) [5, 6, 7]).2.Size) ∧
    ((insertList (create Int 4) [5, 6, 7]).2.values.length =
       (insertList (create Int 4) [5, 6, 7]).2.Size ∧
     ∃ k v, (insertList (create Int 4) [5, 6, 7]).2.GetKeyForIndex 1 = some k ∧
       (insertList (create Int 4) [5, 6, 7]).2.atIndex 1 = some v ∧
       (insertList (create Int 4) [5, 6, 7]).2.TryGet k = some v ∧
       (insertList (create Int 4) [5, 6, 7]).2.atKey k = some v) :=
  ⟨⟨by decide, by decide⟩,
   c8_key_for_index (insertList (create Int 4) [5, 6, 7]).2 (by decide) 1 (by decide)⟩

/-- C10: a default-constructed slot map has slot-table capacity exactly 8, a
map constructed with explicit starting capacity `n` has capacity `n`, and
`Insert` never grows the table while fewer than `Capacity()` elements are
live. -/
theorem c10_capacity {α : Type} (m : SlotMap α) (n : Nat) (v : α) (h : wf m = true)
    (hlt : m.Size < m.Capacity) :
    (createDefault α).Capacity = 8 ∧
    (create α n).Capacity = n ∧
    (Insert m v).2.Capacity = m.Capacity := by
  refine ⟨initSlots_length 0 8, initSlots_length 0 n, ?_⟩
  rcases freeHead_of_size_lt h hlt with ⟨i, hh⟩
  rcases wf_head h hh with ⟨g, nx, hs⟩
  have hIns : Insert m v = insertAt m i v := by rw [Insert, hh]
  rw [Capacity, Capacity, hIns, insertAt_spec m i v g nx hs]
  exact List.length_set m.slots i _

/-- Witness for C10: a concrete capacity-3 map holding one value. -/
theorem c10_capacity_witness :
    (wf (Insert (create Int 3) 1).2 = true ∧
     (Insert (create Int 3) 1).2.Size < (Insert (create Int 3) 1).2.Capacity) ∧
    ((createDefault Int).Capacity = 8 ∧
     (create Int 5).Capacity = 5 ∧
     (Insert (Insert (create Int 3) 1).2 9).2.Capacity =
       (Insert (create Int 3) 1).2.Capacity) :=
  ⟨⟨by decide, by decide⟩,
   c10_capacity (Insert (create Int 3) 1).2 5 9 (by decide) (by decide)⟩


/-- C7: erasing a live key removes its value by moving the last dense
element into the vacated dense position and shrinking the dense size by
one, updating the moved element's slot entry; every other live key still
resolves to its own unchanged value (the value type is opaque here, so the
copy-vs-transfer choice of the compaction is not observable). -/
theorem c7_erase_moves_last {α : Type} (m : SlotMap α) (k : SlotMapKey)
    (h : wf m = true) (hv : isValid m k = true) :
    (Erase m k).1 = true ∧
    (Erase m k).2.Size + 1 = m.Size ∧
    (∀ k', isValid m k' = true → k' ≠ k → (Erase m k).2.TryGet k' = m.TryGet k') ∧
    (∀ p, m.slots[k.index.toNat]? = some (.Occupied k.generation p) →
      p + 1 < m.Size → (Erase m k).2.atIndex p = m.atIndex (m.Size - 1)) := by
  rcases isValid_true_iff.mp hv with ⟨h0, p, hs⟩
  obtain ⟨he1, hlen, _, _, _, _, hpres, hmove⟩ := erase_wf_spec h h0 hs
  refine ⟨he1, hlen, hpres, ?_⟩
  intro q hq hq1
  rw [hs] at hq
  simp only [Option.some.injEq, SlotEntry.Occupied.injEq] at hq
  rw [← hq.2]
  exact hmove (by rw [hq.2]; exact hq1)

/-- Witness for C7: erase the first of three values in a concrete map; the
conclusion restates the theorem, instantiated there. -/
theorem c7_erase_moves_last_witness :
    (wf (insertList (create Int 4) [10, 20, 30]).2 = true ∧
     isValid (insertList (create Int 4) [10, 20, 30]).2
       ((insertList (create Int 4) [10, 20, 30]).1.getD 0 ⟨-1, 0⟩) = true) ∧
    (((insertList (create Int 4) [10, 20, 30]).2.Erase
        ((insertList (create Int 4) [10, 20, 30]).1.getD 0 ⟨-1, 0⟩)).1 = true ∧
     ((insertList (create Int 4) [10, 20, 30]).2.Erase
        ((insertList (create Int 4) [10, 20, 30]).1.getD 0 ⟨-1, 0⟩)).2.Size + 1 =
       (insertList (create Int 4) [10, 20, 30]).2.Size ∧
     (∀ k', isValid (insertList (create Int 4) [10, 20, 30]).2 k' = true →
       k' ≠ (insertList (create Int 4) [10, 20, 30]).1.getD 0 ⟨-1, 0⟩ →
       ((insertList (create Int 4) [10, 20, 30]).2.Erase
          ((insertList (create Int 4) [10, 20, 30]).1.getD 0 ⟨-1, 0⟩)).2.TryGet k' =
         (insertList (create Int 4) [10, 20, 30]).2.TryGet k') ∧
     (∀ p, (insertList (create Int 4) [10, 20, 30]).2.slots[
         ((insertList (create Int 4) [10, 20, 30]).1.getD 0 ⟨-1, 0⟩).index.toNat]? =
         some (.Occupied ((insertList (create Int 4) [10, 20, 30]).1.getD 0 ⟨-1, 0⟩).generation p) →
       p + 1 < (insertList (create Int 4) [10, 20, 30]).2.Size →
       ((insertList (create Int 4) [10, 20, 30]).2.Erase
          ((insertList (create Int 4) [10, 20, 30]).1.getD 0 ⟨-1, 0⟩)).2.atIndex p =
         (insertList (create Int 4) [10, 20, 30]).2.atIndex
           ((insertList (create Int 4) [10, 20, 30]).2.Size - 1))) :=
  ⟨⟨by decide, by decide⟩,
   c7_erase_moves_last (insertList (create Int 4) [10, 20, 30]).2
     ((insertList (create Int 4) [10, 20, 30]).1.getD 0 ⟨-1, 0⟩) (by decide) (by decide)⟩

/-- C2: an `Insert` on a well-formed map (in particular one that grows the
table) keeps every previously live key live with its mapped value; growth
itself keeps the dense arrays and all existing slots untouched and only
appends newly-free generation-0 slots; concretely, 16 inserts into a
capacity-8 map leave all 16 returned keys valid and correctly mapped. -/
theorem c2_growth_preserves {α : Type} (m : SlotMap α) (k : SlotMapKey) (v w : α)
    (h : wf m = true) (hv : m.TryGet k = some v) :
    (isValid (Insert m w).2 k = true ∧ (Insert m w).2.TryGet k = some v) ∧
    (m.freeHead = none →
      m.grow.values = m.values ∧ m.grow.denseKeys = m.denseKeys ∧
      (∀ j, j < m.slots.length → m.grow.slots[j]? = m.slots[j]?) ∧
      (∀ j, m.slots.length ≤ j → j < m.grow.slots.length →
        ∃ nx, m.grow.slots[j]? = some (.Free 0 nx)) ∧
      m.Capacity < m.grow.Capacity) ∧
    (∀ i, i < 16 →
      (insertList (create Int 8) ((List.range 16).map Int.ofNat)).2.TryGet
        ((insertList (create Int 8) ((List.range 16).map Int.ofNat)).1.getD i ⟨-1, 0⟩) =
        some (Int.ofNat i)) ∧
    (insertList (create Int 8) ((List.range 16).map Int.ofNat)).2.Capacity = 16 := by
  have hval := isValid_of_tryGet_some hv
  obtain ⟨hv', htg⟩ := insert_preserves h hval w
  refine ⟨⟨hv', by rw [htg]; exact hv⟩, ?_, by decide, by decide⟩
  intro _
  exact ⟨grow_values m, grow_denseKeys m, grow_slots_pre m, grow_slots_new m,
    grow_capacity_lt m⟩

/-- Witness for C2: a full capacity-8 map, so the extra insert grows it. -/
theorem c2_growth_preserves_witness :
    (wf (insertList (createDefault Int) [1, 2, 3, 4, 5, 6, 7, 8]).2 = true ∧
     (insertList (createDefault Int) [1, 2, 3, 4, 5, 6, 7, 8]).2.TryGet
       ((insertList (createDefault Int) [1, 2, 3, 4, 5, 6, 7, 8]).1.getD 0 ⟨-1, 0⟩) =
       some 1) ∧
    (isValid (Insert (insertList (createDefault Int) [1, 2, 3, 4, 5, 6, 7, 8]).2 9).2
       ((insertList (createDefault Int) [1, 2, 3, 4, 5, 6, 7, 8]).1.getD 0 ⟨-1, 0⟩) = true ∧
     (Insert (insertList (createDefault Int) [1, 2, 3, 4, 5, 6, 7, 8]).2 9).2.TryGet
       ((insertList (createDefault Int) [1, 2, 3, 4, 5, 6, 7, 8]).1.getD 0 ⟨-1, 0⟩) =
       some 1) :=
  ⟨⟨by decide, by decide⟩,
   (c2_growth_preserves (insertList (createDefault Int) [1, 2, 3, 4, 5, 6, 7, 8]).2
     ((insertList (createDefault Int) [1, 2, 3, 4, 5, 6, 7, 8]).1.getD 0 ⟨-1, 0⟩) 1 9
     (by decide) (by decide)).1⟩


/-- C1: after a successful `Erase(k)`, the immediately following `Insert`
reuses the freed slot index but hands out a key with the generation
advanced by one, so `k` stays invalid against the new occupant: lookup with
the new key succeeds while `Erase`, `TryGet` and key-based access with `k`
all fail.  The second conjunct is the concrete capacity-4 scenario: insert
0..3 (keys `k0..k3`), erase all four with `Capacity()` staying 4, insert
0..3 again (keys `j0..j3`); access by `j_i` yields `i`, lookup by `k_i`
fails. -/
theorem c1_reuse_new_generation {α : Type} (m : SlotMap α) (k : SlotMapKey) (v : α)
    (hv : isValid m k = true) :
    ((Insert (Erase m k).2 v).1.index = k.index ∧
     (Insert (Erase m k).2 v).1.generation = k.generation + 1 ∧
     (Insert (Erase m k).2 v).2.TryGet (Insert (Erase m k).2 v).1 = some v ∧
     (Insert (Erase m k).2 v).2.TryGet k = none ∧
     (Insert (Erase m k).2 v).2.atKey k = none ∧
     ((Insert (Erase m k).2 v).2.Erase k).1 = false) ∧
    ((insertList (create Int 4) [0, 1, 2, 3]).2.Capacity = 4 ∧
     (eraseAll (insertList (create Int 4) [0, 1, 2, 3]).2
        (insertList (create Int 4) [0, 1, 2, 3]).1).Capacity = 4 ∧
     (eraseAll (insertList (create Int 4) [0, 1, 2, 3]).2
        (insertList (create Int 4) [0, 1, 2, 3]).1).Size = 0 ∧
     (∀ i, i < 4 →
       (insertList (eraseAll (insertList (create Int 4) [0, 1, 2, 3]).2
          (insertList (create Int 4) [0, 1, 2, 3]).1) [0, 1, 2, 3]).2.Capacity = 4 ∧
       (insertList (eraseAll (insertList (create Int 4) [0, 1, 2, 3]).2
          (insertList (create Int 4) [0, 1, 2, 3]).1) [0, 1, 2, 3]).2.atKey
         ((insertList (eraseAll (insertList (create Int 4) [0, 1, 2, 3]).2
            (insertList (create Int 4) [0, 1, 2, 3]).1) [0, 1, 2, 3]).1.getD i ⟨-1, 0⟩) =
         some (Int.ofNat i) ∧
       (insertList (eraseAll (insertList (create Int 4) [0, 1, 2, 3]).2
          (insertList (create Int 4) [0, 1, 2, 3]).1) [0, 1, 2, 3]).2.TryGet
         ((insertList (create Int 4) [0, 1, 2, 3]).1.getD i ⟨-1, 0⟩) = none ∧
       ((insertList (eraseAll (insertList (create Int 4) [0, 1, 2, 3]).2
          (insertList (create Int 4) [0, 1, 2, 3]).1) [0, 1, 2, 3]).2.Erase
         ((insertList (create Int 4) [0, 1, 2, 3]).1.getD i ⟨-1, 0⟩)).1 = false)) := by
  rcases isValid_true_iff.mp hv with ⟨h0, p, hs⟩
  have hilt : k.index.toNat < m.slots.length := (List.getElem?_eq_some.mp hs).1
  have hkix : (k.index.toNat : Int) = k.index := Int.toNat_of_nonneg (not_lt.mp h0)
  have heq := erase_eq h0 hs rfl
  have hEslots : (Erase m k).2.slots = (eraseCore m p).slots.set k.index.toNat
      (.Free (k.generation + 1) m.freeHead) := by rw [heq]
  have hEhead : (Erase m k).2.freeHead = some k.index.toNat := by rw [heq]
  have hElen : (Erase m k).2.slots.length = m.slots.length := by
    rw [hEslots, List.length_set, eraseCore_slots_length]
  have hEfree : (Erase m k).2.slots[k.index.toNat]? =
      some (.Free (k.generation + 1) m.freeHead) := by
    rw [hEslots]
    exact List.getElem?_set_self (by rw [eraseCore_slots_length]; exact hilt)
  have hIns : Insert (Erase m k).2 v = insertAt (Erase m k).2 k.index.toNat v := by
    rw [Insert, hEhead]
  have hI := insertAt_spec (Erase m k).2 k.index.toNat v (k.generation + 1)
    m.freeHead hEfree
  have h1 : (Insert (Erase m k).2 v).1 =
      ⟨(k.index.toNat : Int), k.generation + 1⟩ := by rw [hIns, hI]
  have h2 : (Insert (Erase m k).2 v).2 =
      { slots := (Erase m k).2.slots.set k.index.toNat
          (.Occupied (k.generation + 1) (Erase m k).2.values.length)
        values := (Erase m k).2.values ++ [v]
        denseKeys := (Erase m k).2.denseKeys ++
          [⟨(k.index.toNat : Int), k.generation + 1⟩]
        freeHead := m.freeHead } := by rw [hIns, hI]
  have hslot2 : (Insert (Erase m k).2 v).2.slots[k.index.toNat]? =
      some (.Occupied (k.generation + 1) (Erase m k).2.values.length) := by
    rw [h2]
    exact List.getElem?_set_self (by rw [hElen]; exact hilt)
  have hval2 : (Insert (Erase m k).2 v).2.values[(Erase m k).2.values.length]? =
      some v := by
    rw [h2]
    exact List.getElem?_concat_length (Erase m k).2.values v
  refine ⟨⟨?_, ?_, ?_, ?_, ?_, ?_⟩, ?_⟩
  · rw [h1]
    exact hkix
  · rw [h1]
  · rw [h1]
    have h0' : ¬((k.index.toNat : Int) < 0) := by omega
    have hs' : (Insert (Erase m k).2 v).2.slots[((k.index.toNat : Int)).toNat]? =
        some (.Occupied (k.generation + 1) (Erase m k).2.values.length) := by
      rw [show ((k.index.toNat : Int)).toNat = k.index.toNat by omega]
      exact hslot2
    rw [tryGet_eq (k := ⟨(k.index.toNat : Int), k.generation + 1⟩) h0' hs', if_pos rfl]
    exact hval2
  · rw [tryGet_eq h0 hslot2, if_neg (by omega)]
  · rw [atKey_eq_tryGet, tryGet_eq h0 hslot2, if_neg (by omega)]
  · have hinv : isValid (Insert (Erase m k).2 v).2 k = false := by
      cases hb : isValid (Insert (Erase m k).2 v).2 k
      · rfl
      · rcases isValid_true_iff.mp hb with ⟨_, q, hq⟩
        rw [hslot2] at hq
        simp only [Option.some.injEq, SlotEntry.Occupied.injEq] at hq
        omega
    rw [erase_invalid hinv]
  · refine ⟨by decide, by decide, by decide, by decide⟩

/-- Witness for C1: erase and reinsert over a concrete one-element map. -/
theorem c1_reuse_new_generation_witness :
    isValid (Insert (create Int 2) 42).2 (Insert (create Int 2) 42).1 = true ∧
    ((Insert (Erase (Insert (create Int 2) 42).2 (Insert (create Int 2) 42).1).2 123).1.index =
       (Insert (create Int 2) 42).1.index ∧
     (Insert (Erase (Insert (create Int 2) 42).2 (Insert (create Int 2) 42).1).2 123).1.generation =
       (Insert (create Int 2) 42).1.generation + 1 ∧
     (Insert (Erase (Insert (create Int 2) 42).2 (Insert (create Int 2) 42).1).2 123).2.TryGet
       (Insert (Erase (Insert (create Int 2) 42).2 (Insert (create Int 2) 42).1).2 123).1 =
       some 123 ∧
     (Insert (Erase (Insert (create Int 2) 42).2 (Insert (create Int 2) 42).1).2 123).2.TryGet
       (Insert (create Int 2) 42).1 = none ∧
     (Insert (Erase (Insert (create Int 2) 42).2 (Insert (create Int 2) 42).1).2 123).2.atKey
       (Insert (create Int 2) 42).1 = none ∧
     ((Insert (Erase (Insert (create Int 2) 42).2 (Insert (create Int 2) 42).1).2 123).2.Erase
       (Insert (create Int 2) 42).1).1 = false) :=
  ⟨by decide,
   (c1_reuse_new_generation (Insert (create Int 2) 42).2 (Insert (create Int 2) 42).1 123
     (by decide)).1⟩

end Unalmas.SlotMap
